import Mathlib

/-!
Verification of the stepdown-rule analyzer/fixer (TypeScript) against its
specification, via a shallow embedding of the core source files
(`src/analyzer.ts`, `src/fixer.ts`, `src/graph-algorithms.ts`,
`src/ast-node-visitors.ts`, `src/ast-graph-builder.ts`, `src/registry.ts`,
`src/stepdown-rule.ts`, `src/nested-rule.ts`).

The embedded language is the fragment of TypeScript the analyzer inspects:
named function declarations, variable statements whose declarators may bind
function literals (with identifier or destructuring-pattern targets, with or
without initializers), expression statements, return statements, imports and
exports.  Expressions carry exactly the information the analyzer reads:
identifiers and call expressions with identifier callees.

Source positions: the analyzer only ever compares line numbers and matches
node start offsets.  We model the printer's layout by assigning each statement
a height in lines (`stmtLines`) and laying statements out sequentially; a
statement starting on line `l` has start offset `2*l`, and the function
literal initializer of a variable declarator sitting on line `l` has start
offset `2*l + 1` (it begins strictly after the `const name = ` prefix on the
same line).  `getPositionFromOffset` is then integer division by two.
Columns are not compared anywhere in the analyzed code, so every call site is
recorded at column 1.
-/

inductive Expr where
  | ident (s : String)
  | lit
  | call (callee : String) (args : List Expr)

inductive BindingName where
  | ident (s : String)
  | pattern (elems : List String)
  deriving DecidableEq

mutual
inductive Stmt where
  | funcDecl (name : String) (exported : Bool) (body : List Stmt)
  | varStmt (exported : Bool) (decls : List VarDecl)
  | exprStmt (e : Expr)
  | ret (e : Option Expr)
  | importDecl
  | exportDecl
inductive VarDecl where
  | noInit (name : BindingName)
  | fnInit (name : BindingName) (arrow : Bool) (body : List Stmt)
  | exprInit (name : BindingName) (e : Expr)
end

/-- `declaration.name?.getText(sourceFile)`: the source text of a binding
target; a destructuring pattern renders as its brace-enclosed element list. -/
def bindingText : BindingName → String
  | .ident s => s
  | .pattern es => "\x7b " ++ String.intercalate ", " es ++ " \x7d"

/-- The binding target of a variable declarator. -/
def VarDecl.binding : VarDecl → BindingName
  | .noInit b => b
  | .fnInit b _ _ => b
  | .exprInit b _ => b

/-- `isFunctionLike(decl.initializer)` together with the initializer's
presence: true exactly for declarators initialized to an arrow function or
function expression. -/
def VarDecl.hasFunctionInitializer : VarDecl → Bool
  | .fnInit _ _ _ => true
  | _ => false

mutual
/-- Number of printed lines a statement occupies: a function declaration is a
header line, its body, and a closing-brace line; a variable statement is one
line plus, for every function-literal declarator, its body and a closing
line; every other statement prints on one line. -/
def stmtLines : Stmt → Nat
  | .funcDecl _ _ body => 2 + stmtsLines body
  | .varStmt _ decls => 1 + declsLines decls
  | _ => 1
def stmtsLines : List Stmt → Nat
  | [] => 0
  | s :: rest => stmtLines s + stmtsLines rest
def declsLines : List VarDecl → Nat
  | [] => 0
  | d :: rest => declLines d + declsLines rest
def declLines : VarDecl → Nat
  | .fnInit _ _ body => 1 + stmtsLines body
  | _ => 0
end

/-- `getPositionFromOffset(sourceFile, offset).line` under our layout. -/
def lineOfOffset (offset : Nat) : Nat := offset / 2

inductive FnKind where
  | declaration
  | arrowFunction
  | functionExpression
  deriving DecidableEq

/-- `FunctionInfo` from `types.ts`, restricted to the fields the analyzed
code reads downstream (`dependencies` is never populated and
`canBeFunctionDeclaration` is computed but never consumed by the fixer, per
the spec's open question; both are omitted). -/
structure FunctionInfo where
  name : String
  kind : FnKind
  line : Nat
  start : Nat
  isExported : Bool
  parentFunction : Option String
  deriving DecidableEq

structure CallSite where
  line : Nat
  column : Nat
  deriving DecidableEq

structure CallSiteInfo where
  calledFunction : String
  callSite : CallSite
  deriving DecidableEq

structure StepdownViolation where
  file : String
  function : FunctionInfo
  dependency : FunctionInfo
  message : String
  callSite : CallSite
  deriving DecidableEq

structure NestedFunctionViolation where
  file : String
  parent : FunctionInfo
  nested : FunctionInfo
  message : String
  deriving DecidableEq

/-- `extractVariableFunction`/`createVariableFunctionInfo` from
`analyzer.ts`, for one declarator of a variable statement starting on line
`line`: requires a function-like initializer, then builds the entity from
`declaration.name?.getText()` (which is the pattern text for destructuring
targets — there is no identifier check on this path). -/
def extractVariableFunction (parentFunction : Option String) (exported : Bool)
    (line : Nat) : VarDecl → Option FunctionInfo
  | .fnInit b arrow _ =>
      if bindingText b = "" then none
      else some {
        name := bindingText b
        kind := if arrow then FnKind.arrowFunction else FnKind.functionExpression
        line := line
        start := 2 * line
        isExported := exported
        parentFunction := parentFunction }
  | _ => none

mutual
/-- `extractFunctions`' recursive `visit(node, parentFunction)` over a
statement list whose first statement starts on line `line`. -/
def extractStmts (parentFunction : Option String) (line : Nat) :
    List Stmt → List FunctionInfo
  | [] => []
  | s :: rest => extractStmt parentFunction line s ++
      extractStmts parentFunction (line + stmtLines s) rest
def extractStmt (parentFunction : Option String) (line : Nat) :
    Stmt → List FunctionInfo
  | .funcDecl name exported body =>
      { name := name
        kind := FnKind.declaration
        line := line
        start := 2 * line
        isExported := exported
        parentFunction := parentFunction } :: extractStmts (some name) (line + 1) body
  | .varStmt exported decls =>
      let infos := declsInfos parentFunction exported line decls
      let firstFuncName := (infos.head?).map (·.name)
      let childParent := match firstFuncName with
        | some n => some n
        | none => parentFunction
      infos ++ declsBodies childParent line decls
  | _ => []
/-- `handleVariableStatement`: entities pushed per declarator, in order. -/
def declsInfos (parentFunction : Option String) (exported : Bool) (line : Nat) :
    List VarDecl → List FunctionInfo
  | [] => []
  | d :: rest =>
      (extractVariableFunction parentFunction exported line d).toList ++
        declsInfos parentFunction exported line rest
/-- The subsequent `forEachChild` descent into the declarators' function
bodies; `cur` is the line on which the current declarator's initializer sits. -/
def declsBodies (parentFunction : Option String) (cur : Nat) :
    List VarDecl → List FunctionInfo
  | [] => []
  | .fnInit _ _ body :: rest =>
      extractStmts parentFunction (cur + 1) body ++
        declsBodies parentFunction (cur + 1 + stmtsLines body) rest
  | _ :: rest => declsBodies parentFunction cur rest
end

/-- `extractFunctions(sourceFile)`: the file's statements start on line 1. -/
def extractFunctions (ast : List Stmt) : List FunctionInfo :=
  extractStmts none 1 ast

/-- First-occurrence-order deduplication, the order `[...new Set(xs)]`
produces. -/
def jsDedup (xs : List String) : List String :=
  xs.foldl (fun acc x => if x ∈ acc then acc else acc ++ [x]) []

def lookupA {α : Type} (m : List (String × α)) (k : String) : Option α :=
  (m.find? (fun p => p.1 = k)).map (·.2)

/-- An edge observed by `buildCallGraph`'s tree walk: the enclosing function,
the called name, and the call site. -/
structure RawEdge where
  container : String
  calledFunction : String
  callSite : CallSite
  deriving DecidableEq

mutual
/-- Call expressions with identifier callees inside an expression, paired
with the nearest enclosing function (`findContainingFunction`); edges with no
enclosing function are dropped.  All sub-expressions of a statement sit on
the statement's line. -/
def collectExpr (names : List String) (container : Option String) (line : Nat) :
    Expr → List RawEdge
  | .ident _ => []
  | .lit => []
  | .call callee args =>
      (if callee ∈ names then
        match container with
        | some c => [{ container := c, calledFunction := callee,
                       callSite := { line := line, column := 1 } }]
        | none => []
      else []) ++ collectExprs names container line args
def collectExprs (names : List String) (container : Option String) (line : Nat) :
    List Expr → List RawEdge
  | [] => []
  | e :: rest => collectExpr names container line e ++ collectExprs names container line rest
end

mutual
/-- `buildCallGraph`'s `visit` over statements: descending into a function
declaration's body or into a declarator's function-literal body updates the
nearest enclosing function for everything inside. -/
def collectStmts (names : List String) (container : Option String) (line : Nat) :
    List Stmt → List RawEdge
  | [] => []
  | s :: rest => collectStmt names container line s ++
      collectStmts names container (line + stmtLines s) rest
def collectStmt (names : List String) (container : Option String) (line : Nat) :
    Stmt → List RawEdge
  | .funcDecl name _ body => collectStmts names (some name) (line + 1) body
  | .varStmt _ decls => collectDecls names container line decls
  | .exprStmt e => collectExpr names container line e
  | .ret (some e) => collectExpr names container line e
  | _ => []
def collectDecls (names : List String) (container : Option String) (cur : Nat) :
    List VarDecl → List RawEdge
  | [] => []
  | .fnInit b _ body :: rest =>
      collectStmts names (some (bindingText b)) (cur + 1) body ++
        collectDecls names container (cur + 1 + stmtsLines body) rest
  | .exprInit _ e :: rest =>
      collectExpr names container cur e ++ collectDecls names container cur rest
  | .noInit _ :: rest => collectDecls names container cur rest
end

def CallGraph : Type := List (String × List CallSiteInfo)

/-- `recordDependency`: append the edge to the container's entry; containers
absent from the map are ignored. -/
def recordDependency (cg : CallGraph) (e : RawEdge) : CallGraph :=
  cg.map (fun p => if p.1 = e.container
    then (p.1, p.2 ++ [{ calledFunction := e.calledFunction, callSite := e.callSite }])
    else p)

/-- `buildCallGraph(functions, sourceFile)`: every function name is seeded
with an empty call-site list, then the whole tree is walked recording each
identifier-callee call against its nearest enclosing function. -/
def buildCallGraph (functions : List FunctionInfo) (ast : List Stmt) : CallGraph :=
  let names := functions.map (·.name)
  let seeded : CallGraph := (jsDedup names).map (fun n => (n, []))
  (collectStmts names none 1 ast).foldl recordDependency seeded

/-- `callGraphToDependencyMap` from `ast-graph-builder.ts`: per caller, the
called names deduplicated in first-occurrence order. -/
def callGraphToDependencyMap (cg : CallGraph) : List (String × List String) :=
  cg.map (fun p => (p.1, jsDedup (p.2.map (·.calledFunction))))

/-- The violation record pushed by `findViolationsForFunction`. -/
def mkStepdownViolation (func depFunc : FunctionInfo) (calledFunction : String)
    (callSite : CallSite) : StepdownViolation :=
  { file := ""
    function := func
    dependency := depFunc
    message := "Stepdown violation: " ++ func.name ++ " calls " ++
      calledFunction ++ " which appears above it"
    callSite := callSite }

/-- `findViolationsForFunction` from `analyzer.ts`: for each recorded call
site of `func`, skip self-calls, look the callee up in the entity list, skip
non-top-level callees, and report a violation when the callee's declaration
line is strictly above the caller's. -/
def findViolationsForFunction (func : FunctionInfo) (functions : List FunctionInfo)
    (cg : CallGraph) : List StepdownViolation :=
  ((lookupA cg func.name).getD []).flatMap (fun info =>
    if info.calledFunction = func.name then []
    else match functions.find? (fun f => f.name = info.calledFunction) with
      | none => []
      | some depFunc =>
        if depFunc.parentFunction = none then
          if depFunc.line < func.line then
            [mkStepdownViolation func depFunc info.calledFunction info.callSite]
          else []
        else [])

/-- `findViolations`: stepdown violations for every top-level function, in
iteration order. -/
def findViolations (functions : List FunctionInfo) (cg : CallGraph) :
    List StepdownViolation :=
  (functions.filter (fun f => f.parentFunction = none)).flatMap
    (fun f => findViolationsForFunction f functions cg)

/-- Mutable context of `detectCircularDependencies`' DFS. -/
structure CycCtx where
  cycles : List (List String)
  visited : List String
  recursionStack : List String
  path : List String
  deriving DecidableEq

/-- `extractCycle`: the sub-path from the first occurrence of `funcName` to
the end of the current path, closed with `funcName` itself. -/
def extractCycle (funcName : String) (path : List String) : List String :=
  path.drop (path.findIdx (fun x => x == funcName)) ++ [funcName]

/-- `isValidCycle`: trivial self-loops are excluded. -/
def isValidCycle (cycle : List String) : Bool :=
  cycle.length > 2 || (cycle.length == 2 && cycle.get? 0 != cycle.get? 1)

/-- The `for (const { calledFunction } of callSites)` loop of
`dfsDetectCycle`, returning early on the first `true`. -/
def dfsLoop (f : String → CycCtx → Bool × CycCtx) :
    List CallSiteInfo → CycCtx → Bool × CycCtx
  | [], ctx => (false, ctx)
  | e :: rest, ctx =>
      match f e.calledFunction ctx with
      | (true, ctx1) => (true, ctx1)
      | (false, ctx1) => dfsLoop f rest ctx1

/-- One unfolding of `dfsDetectCycle(funcName, context)`: a node already on
the recursion stack closes a cycle; a visited node is skipped; otherwise the
node is pushed on visited/stack/path and its callees are explored.  On the
early `return true` path the stack and path are deliberately not restored,
exactly as in the source. -/
def dfsStep (cg : CallGraph) (f : String → CycCtx → Bool × CycCtx)
    (funcName : String) (ctx : CycCtx) : Bool × CycCtx :=
  if funcName ∈ ctx.recursionStack then
    let cycle := extractCycle funcName ctx.path
    (true, if isValidCycle cycle then { ctx with cycles := ctx.cycles ++ [cycle] } else ctx)
  else if funcName ∈ ctx.visited then (false, ctx)
  else
    let ctx1 : CycCtx := { ctx with
      visited := ctx.visited ++ [funcName]
      recursionStack := ctx.recursionStack ++ [funcName]
      path := ctx.path ++ [funcName] }
    match dfsLoop f ((lookupA cg funcName).getD []) ctx1 with
    | (true, ctx2) => (true, ctx2)
    | (false, ctx2) => (false, { ctx2 with
        recursionStack := ctx2.recursionStack.erase funcName
        path := ctx2.path.dropLast })

/-- `dfsDetectCycle`, indexed by recursion depth.  Every nested call pushes a
new, previously-unstacked name onto the recursion stack and only names known
to the call graph or the entity list are ever visited, so the depth used in
`detectCircularDependencies` below is never exhausted. -/
def dfsDetectCycle (cg : CallGraph) : Nat → String → CycCtx → Bool × CycCtx
  | 0 => fun _ ctx => (false, ctx)
  | fuel + 1 => dfsStep cg (dfsDetectCycle cg fuel)

/-- `detectCircularDependencies(functions, callGraph)`. -/
def detectCircularDependencies (functions : List FunctionInfo) (cg : CallGraph) :
    List (List String) :=
  let fuel := functions.length + cg.length + 1
  (functions.foldl (fun ctx f =>
    if f.name ∈ ctx.visited then ctx
    else (dfsDetectCycle cg fuel f.name ctx).2)
    { cycles := [], visited := [], recursionStack := [], path := [] }).cycles

/-- `filterOutCircularViolations`: keep only violations where neither
endpoint's name occurs in any detected cycle. -/
def filterOutCircularViolations (violations : List StepdownViolation)
    (circularDependencies : List (List String)) : List StepdownViolation :=
  let functionsInCycles := circularDependencies.flatten
  violations.filter (fun v =>
    !(functionsInCycles.contains v.function.name ||
      functionsInCycles.contains v.dependency.name))

/-- `findStepdownViolations` (the actionable set), over the entity list and
call graph of a rule context. -/
def findStepdownViolationsCore (functions : List FunctionInfo) (cg : CallGraph) :
    List StepdownViolation :=
  filterOutCircularViolations (findViolations functions cg)
    (detectCircularDependencies functions cg)

/-- `new Map(functions.map(f => [f.name, f]))`: later entries override, so a
lookup returns the last entity with the given name. -/
def functionMapLookup (functions : List FunctionInfo) (n : String) :
    Option FunctionInfo :=
  functions.reverse.find? (fun f => f.name = n)

/-- `findLastLogicStatementLine`: the greatest starting line among the
statements that are neither function declarations nor variable statements
all of whose declarators initialize to function literals; 0 when there is no
such statement.  `line` is the line of the first statement. -/
def findLastLogicAux : List Stmt → Nat → Nat → Nat
  | [], _, acc => acc
  | s :: rest, line, acc =>
      let skip := match s with
        | .funcDecl _ _ _ => true
        | .varStmt _ decls => decls.all (fun d => d.hasFunctionInitializer)
        | _ => false
      findLastLogicAux rest (line + stmtLines s) (if skip then acc else max acc line)

def findLastLogicStatementLine (stmts : List Stmt) (line : Nat) : Nat :=
  findLastLogicAux stmts line 0

mutual
/-- `findFunctionNode`'s search: the first function-like node (in depth-first
preorder) whose start offset matches, returning its block body.  Function
declarations start at `2*line`; a declarator's function-literal initializer
starts at `2*line + 1`. -/
def findFnNodeStmts (start : Nat) (line : Nat) : List Stmt → Option (List Stmt)
  | [] => none
  | s :: rest =>
      match findFnNodeStmt start line s with
      | some body => some body
      | none => findFnNodeStmts start (line + stmtLines s) rest
def findFnNodeStmt (start : Nat) (line : Nat) : Stmt → Option (List Stmt)
  | .funcDecl _ _ body =>
      if 2 * line = start then some body else findFnNodeStmts start (line + 1) body
  | .varStmt _ decls => findFnNodeDecls start line decls
  | _ => none
def findFnNodeDecls (start : Nat) (cur : Nat) : List VarDecl → Option (List Stmt)
  | [] => none
  | .fnInit _ _ body :: rest =>
      match (if 2 * cur + 1 = start then some body
             else findFnNodeStmts start (cur + 1) body) with
      | some b => some b
      | none => findFnNodeDecls start (cur + 1 + stmtsLines body) rest
  | _ :: rest => findFnNodeDecls start cur rest
end

def findFunctionNode (ast : List Stmt) (start : Nat) : Option (List Stmt) :=
  findFnNodeStmts start 1 ast

/-- Identifier occurrences inside a binding target (a simple binding is an
identifier node; a destructuring pattern contains one identifier node per
element). -/
def bindingHasIdent (name : String) : BindingName → Bool
  | .ident s => s = name
  | .pattern es => es.contains name

mutual
/-- `findIdentifierExcludingDefinitions`: search for an identifier occurrence
of `name`, pruning any function declaration named `name` and any variable
statement one of whose declarators has `name` as its identifier binding. -/
def findIdentStmts (name : String) : List Stmt → Bool
  | [] => false
  | s :: rest => findIdentStmt name s || findIdentStmts name rest
def findIdentStmt (name : String) : Stmt → Bool
  | .funcDecl n _ body => if n = name then false else findIdentStmts name body
  | .varStmt _ decls =>
      if decls.any (fun d => match d.binding with
        | .ident s => s = name
        | .pattern _ => false) then false
      else findIdentDecls name decls
  | .exprStmt e => findIdentExpr name e
  | .ret (some e) => findIdentExpr name e
  | _ => false
def findIdentDecls (name : String) : List VarDecl → Bool
  | [] => false
  | d :: rest => findIdentDecl name d || findIdentDecls name rest
def findIdentDecl (name : String) : VarDecl → Bool
  | .noInit b => bindingHasIdent name b
  | .fnInit b _ body => bindingHasIdent name b || findIdentStmts name body
  | .exprInit b e => bindingHasIdent name b || findIdentExpr name e
def findIdentExpr (name : String) : Expr → Bool
  | .ident s => s = name
  | .lit => false
  | .call c args => c = name || findIdentExprs name args
def findIdentExprs (name : String) : List Expr → Bool
  | [] => false
  | e :: rest => findIdentExpr name e || findIdentExprs name rest
end

/-- `isReferencedInFunctionBody`: locate the parent entity's declaring
function node by its recorded start offset and search its body.  A
variable-bound parent records the variable statement's start, which never
matches the function literal's own start, so the lookup fails and the result
is false. -/
def isReferencedInFunctionBody (nestedName : String) (parentInfo : FunctionInfo)
    (ast : List Stmt) : Bool :=
  match findFunctionNode ast parentInfo.start with
  | some body => findIdentStmts nestedName body
  | none => false

/-- `checkAndAddViolation`: a nested violation is recorded when the nested
node's starting line is strictly below the last logic line and the nested
name is not referenced in the parent body. -/
def checkAndAddViolation (ast : List Stmt) (nodeStart : Nat) (nestedName : String)
    (nestedInfo parentInfo : FunctionInfo) (lastLogicLine : Nat) :
    List NestedFunctionViolation :=
  let nestedLine := lineOfOffset nodeStart
  if nestedLine < lastLogicLine && !(isReferencedInFunctionBody nestedName parentInfo ast) then
    [{ file := ""
       parent := parentInfo
       nested := nestedInfo
       message := "Nested function violation: " ++ nestedName ++
         " should appear after all logic in " ++ parentInfo.name }]
  else []

mutual
/-- `processStatements` over a body's direct statements.  The recursion into
a nested body inlines `checkFunctionBodyAndProcess` (exemption of logic-free
bodies); the standalone wrapper is defined right after this block. -/
def processStatements (ast : List Stmt) (functions : List FunctionInfo)
    (parentInfo : FunctionInfo) (lastLogicLine : Nat) :
    List Stmt → Nat → List NestedFunctionViolation
  | [], _ => []
  | s :: rest, line =>
      processOneStatement ast functions parentInfo lastLogicLine s line ++
        processStatements ast functions parentInfo lastLogicLine rest (line + stmtLines s)
/-- `processFunctionDeclaration` / `processVariableDeclaration` for a single
direct statement. -/
def processOneStatement (ast : List Stmt) (functions : List FunctionInfo)
    (parentInfo : FunctionInfo) (lastLogicLine : Nat) :
    Stmt → Nat → List NestedFunctionViolation
  | .funcDecl n _ body, line =>
      let nestedInfo := functionMapLookup functions n
      let v := match nestedInfo with
        | some ninfo => checkAndAddViolation ast (2 * line) n ninfo parentInfo lastLogicLine
        | none => []
      let targetInfo := nestedInfo.getD parentInfo
      v ++ (if findLastLogicStatementLine body (line + 1) = 0 then []
            else processStatements ast functions targetInfo
              (findLastLogicStatementLine body (line + 1)) body (line + 1))
  | .varStmt _ decls, line =>
      processVarDecls ast functions parentInfo lastLogicLine decls line
  | _, _ => []
/-- The declarator loop of `processVariableDeclaration`: only declarators
with a function-literal initializer and a simple identifier binding are
checked and recursed into. -/
def processVarDecls (ast : List Stmt) (functions : List FunctionInfo)
    (parentInfo : FunctionInfo) (lastLogicLine : Nat) :
    List VarDecl → Nat → List NestedFunctionViolation
  | [], _ => []
  | .fnInit (.ident n) _ body :: rest, cur =>
      (match functionMapLookup functions n with
       | some ninfo =>
           checkAndAddViolation ast (2 * cur + 1) n ninfo parentInfo lastLogicLine ++
             (if findLastLogicStatementLine body (cur + 1) = 0 then []
              else processStatements ast functions ninfo
                (findLastLogicStatementLine body (cur + 1)) body (cur + 1))
       | none => []) ++
        processVarDecls ast functions parentInfo lastLogicLine rest (cur + 1 + stmtsLines body)
  | .fnInit (.pattern _) _ body :: rest, cur =>
      processVarDecls ast functions parentInfo lastLogicLine rest (cur + 1 + stmtsLines body)
  | _ :: rest, cur => processVarDecls ast functions parentInfo lastLogicLine rest cur
end

/-- `checkFunctionBodyAndProcess`: a body without logic statements is exempt
and is not processed further on this path. -/
def checkFunctionBodyAndProcess (ast : List Stmt) (functions : List FunctionInfo)
    (funcInfo : FunctionInfo) (body : List Stmt) (bodyLine : Nat) :
    List NestedFunctionViolation :=
  let lastLogicLine := findLastLogicStatementLine body bodyLine
  if lastLogicLine = 0 then []
  else processStatements ast functions funcInfo lastLogicLine body bodyLine

mutual
/-- The outer `visit` of `findNestedFunctionViolations`: every function
declaration and variable statement in the whole tree is processed, and the
walk descends into every child. -/
def visitNestedStmts (ast : List Stmt) (functions : List FunctionInfo) :
    List Stmt → Nat → List NestedFunctionViolation
  | [], _ => []
  | s :: rest, line => visitNestedStmt ast functions s line ++
      visitNestedStmts ast functions rest (line + stmtLines s)
def visitNestedStmt (ast : List Stmt) (functions : List FunctionInfo) :
    Stmt → Nat → List NestedFunctionViolation
  | .funcDecl n _ body, line =>
      (match functionMapLookup functions n with
       | some info => checkFunctionBodyAndProcess ast functions info body (line + 1)
       | none => []) ++ visitNestedStmts ast functions body (line + 1)
  | .varStmt _ decls, line =>
      varDeclChecks ast functions decls line ++ varDeclVisits ast functions decls line
  | _, _ => []
/-- `processVariableStatement`: every identifier-bound function-literal
declarator with a known entity is processed first … -/
def varDeclChecks (ast : List Stmt) (functions : List FunctionInfo) :
    List VarDecl → Nat → List NestedFunctionViolation
  | [], _ => []
  | .fnInit (.ident n) _ body :: rest, cur =>
      (match functionMapLookup functions n with
       | some info => checkFunctionBodyAndProcess ast functions info body (cur + 1)
       | none => []) ++ varDeclChecks ast functions rest (cur + 1 + stmtsLines body)
  | .fnInit (.pattern _) _ body :: rest, cur =>
      varDeclChecks ast functions rest (cur + 1 + stmtsLines body)
  | _ :: rest, cur => varDeclChecks ast functions rest cur
/-- … and then `forEachChild` descends into the declarators' bodies. -/
def varDeclVisits (ast : List Stmt) (functions : List FunctionInfo) :
    List VarDecl → Nat → List NestedFunctionViolation
  | [], _ => []
  | .fnInit _ _ body :: rest, cur =>
      visitNestedStmts ast functions body (cur + 1) ++
        varDeclVisits ast functions rest (cur + 1 + stmtsLines body)
  | _ :: rest, cur => varDeclVisits ast functions rest cur
end

/-- `findNestedFunctionViolations(sourceFile, functions)`. -/
def findNestedFunctionViolations (ast : List Stmt) (functions : List FunctionInfo) :
    List NestedFunctionViolation :=
  visitNestedStmts ast functions ast 1

/-- `CategorizedNodes` from `ast-node-visitors.ts` (the `info` field of the
function entries is always `null` and is dropped). -/
structure Categorized where
  imports : List Stmt
  functions : List Stmt
  exports : List Stmt
  other : List Stmt

/-- `categorizeNodes`: partition the top-level statements, keeping each
category in source order.  A variable statement counts as a function exactly
when some declarator has a function-like initializer. -/
def categorizeNodes (stmts : List Stmt) : Categorized :=
  stmts.foldl (fun c s =>
    match s with
    | .importDecl => { c with imports := c.imports ++ [s] }
    | .exportDecl => { c with exports := c.exports ++ [s] }
    | .funcDecl _ _ _ => { c with functions := c.functions ++ [s] }
    | .varStmt _ decls =>
        if decls.any (·.hasFunctionInitializer)
        then { c with functions := c.functions ++ [s] }
        else { c with other := c.other ++ [s] }
    | _ => { c with other := c.other ++ [s] })
    { imports := [], functions := [], exports := [], other := [] }

/-- `reconstructStatements`: imports, reordered functions, other statements,
exports. -/
def reconstructStatements (c : Categorized) (reorderedFunctions : List Stmt) :
    List Stmt :=
  c.imports ++ reorderedFunctions ++ c.other ++ c.exports

/-- `extractFunctionName` from `ast-graph-builder.ts`: a named function
declaration, or the first declarator of a variable statement when its binding
is a simple identifier (no initializer requirement on this path). -/
def extractFunctionName : Stmt → Option String
  | .funcDecl n _ _ => some n
  | .varStmt _ (d :: _) =>
      match d.binding with
      | .ident s => some s
      | .pattern _ => none
  | _ => none

/-- `extractStatementFunctionName` from `fixer.ts`: like
`extractFunctionName` but the first declarator must also have a
function-like initializer. -/
def extractStatementFunctionName : Stmt → Option String
  | .funcDecl n _ _ => some n
  | .varStmt _ (VarDecl.fnInit (.ident s) _ _ :: _) => some s
  | _ => none

mutual
/-- All identifier callees of call expressions in a statement's subtree, in
depth-first preorder (`visitNodeForDependencies`). -/
def callIdentsStmt : Stmt → List String
  | .funcDecl _ _ body => callIdentsStmts body
  | .varStmt _ decls => callIdentsDecls decls
  | .exprStmt e => callIdentsExpr e
  | .ret (some e) => callIdentsExpr e
  | _ => []
def callIdentsStmts : List Stmt → List String
  | [] => []
  | s :: rest => callIdentsStmt s ++ callIdentsStmts rest
def callIdentsDecls : List VarDecl → List String
  | [] => []
  | .fnInit _ _ body :: rest => callIdentsStmts body ++ callIdentsDecls rest
  | .exprInit _ e :: rest => callIdentsExpr e ++ callIdentsDecls rest
  | .noInit _ :: rest => callIdentsDecls rest
def callIdentsExpr : Expr → List String
  | .ident _ => []
  | .lit => []
  | .call c args => c :: callIdentsExprs args
def callIdentsExprs : List Expr → List String
  | [] => []
  | e :: rest => callIdentsExpr e ++ callIdentsExprs rest
end

/-- `extractDependenciesFor`: callees restricted to the known function names,
deduplicated in first-occurrence order. -/
def extractDependenciesFor (s : Stmt) (functionNames : List String) : List String :=
  jsDedup ((callIdentsStmt s).filter (fun c => functionNames.contains c))

/-- `Map.set`: update the value in place when the key exists (keeping its
position), otherwise append. -/
def setA {α : Type} (m : List (String × α)) (k : String) (v : α) :
    List (String × α) :=
  if (m.find? (fun p => p.1 = k)).isSome
  then m.map (fun p => if p.1 = k then (k, v) else p)
  else m ++ [(k, v)]

/-- Stable ascending insertion by key, matching JavaScript's stable
`Array.prototype.sort((a, b) => key(a) - key(b))`. -/
def insertByKey (key : String → Nat) (x : String) : List String → List String
  | [] => [x]
  | y :: ys => if key y ≤ key x then y :: insertByKey key x ys else x :: y :: ys

def sortByKey (key : String → Nat) (l : List String) : List String :=
  l.foldl (fun acc x => insertByKey key x acc) []

/-- `sourceOrder.get(n) ?? 999`. -/
def orderKey (order : List (String × Nat)) (n : String) : Nat :=
  (lookupA order n).getD 999

/-- The threaded state of `visitDependencyNode` (`temp` is restored by every
return path of the source, so it is passed as a plain parameter below). -/
structure SortState where
  visited : List String
  result : List String
  deriving DecidableEq

/-- The `for (const dep of orderedDeps)` loop body of `visitDependencyNode`
(the `dependencies.has(dep)` guard is applied to the list before the loop;
the map is never mutated during the sort, so this is the same test). -/
def visitListAux (f : String → List String → SortState → SortState) :
    List String → List String → SortState → SortState
  | [], _, st => st
  | d :: rest, temp, st => visitListAux f rest temp (f d temp st)

/-- One unfolding of `visitDependencyNode(name, context)`: a name already on
the active path (`temp`) or already visited is skipped; otherwise its
dependencies are visited in source order and the name is then marked visited
and emitted (post-order). -/
def visitStep (deps : List (String × List String)) (order : List (String × Nat))
    (f : String → List String → SortState → SortState)
    (name : String) (temp : List String) (st : SortState) : SortState :=
  if name ∈ temp then st
  else if name ∈ st.visited then st
  else
    let ds := (sortByKey (orderKey order) ((lookupA deps name).getD [])).filter
      (fun d => (lookupA deps d).isSome)
    let st1 := visitListAux f ds (name :: temp) st
    { visited := name :: st1.visited, result := st1.result ++ [name] }

/-- `visitDependencyNode`, indexed by recursion depth.  Every nested call
extends the active path `temp` by a fresh name drawn from the map's keys, so
the depth `dependencies.size + 1` used by `topologicalSort` below can never
be exhausted. -/
def visitDependencyNode (deps : List (String × List String))
    (order : List (String × Nat)) : Nat → String → List String → SortState → SortState
  | 0 => fun _ _ st => st
  | fuel + 1 => visitStep deps order (visitDependencyNode deps order fuel)

/-- The `for (const name of names)` loop of `topologicalSort`. -/
def topoFold (deps : List (String × List String)) (order : List (String × Nat))
    (fuel : Nat) : List String → SortState → SortState
  | [], st => st
  | n :: rest, st =>
      topoFold deps order fuel rest
        (if n ∈ st.visited then st else visitDependencyNode deps order fuel n [] st)

/-- `topologicalSort(dependencies, sourceOrder)` from `graph-algorithms.ts`:
DFS post-order over the keys taken in source order, with names never visited
appended at the end in source order. -/
def topologicalSort (deps : List (String × List String))
    (order : List (String × Nat)) : List String :=
  let names := sortByKey (orderKey order) (deps.map (·.1))
  let st := topoFold deps order (deps.length + 1) names { visited := [], result := [] }
  st.result ++ names.filter (fun n => !(st.visited.contains n))

/-- `findAndRemoveLeafFunctions`: names with no outgoing edges are removed
from the dependency map and returned in source order. -/
def findAndRemoveLeafFunctions (deps : List (String × List String))
    (order : List (String × Nat)) :
    List String × List (String × List String) :=
  let leafNames := (deps.filter (fun p => p.2.isEmpty)).map (·.1)
  (sortByKey (orderKey order) leafNames, deps.filter (fun p => !(p.2.isEmpty)))

/-- `reorderFunctions` from `fixer.ts`: leaves are deferred, the remaining
graph is sorted dependencies-first and reversed to callers-first, and the
leaves are appended in original order. -/
def reorderFunctions (functions : List Stmt)
    (deps : List (String × List String)) : List Stmt :=
  let indexed := functions.enum
  let sourceOrder := indexed.foldl (fun m p =>
    match extractFunctionName p.2 with
    | some n => setA m n p.1
    | none => m) []
  let nameToFunc := indexed.foldl (fun m p =>
    match extractFunctionName p.2 with
    | some n => setA m n p.2
    | none => m) []
  let pruned := findAndRemoveLeafFunctions deps sourceOrder
  let leafFunctions := pruned.1.filterMap (fun n => lookupA nameToFunc n)
  let sorted := (topologicalSort pruned.2 sourceOrder).reverse
  let sortedFunctions := sorted.filterMap (fun n => lookupA nameToFunc n)
  sortedFunctions ++ leafFunctions

/-- `reorderTopLevelOnly` (the stepdown rule's fix). -/
def reorderTopLevelOnly (ast : List Stmt)
    (dependencyGraph : List (String × List String)) : List Stmt :=
  let c := categorizeNodes ast
  reconstructStatements c (reorderFunctions c.functions dependencyGraph)

mutual
/-- Structural equality of expressions (recursing on the left argument). -/
def exprEqb : Expr → Expr → Bool
  | .ident a => fun e => match e with
      | .ident b => a == b
      | _ => false
  | .lit => fun e => match e with
      | .lit => true
      | _ => false
  | .call c1 a1 => fun e => match e with
      | .call c2 a2 => c1 == c2 && exprsEqb a1 a2
      | _ => false
def exprsEqb : List Expr → List Expr → Bool
  | [] => fun l => match l with
      | [] => true
      | _ => false
  | a :: as1 => fun l => match l with
      | b :: bs => exprEqb a b && exprsEqb as1 bs
      | _ => false
end

mutual
/-- Structural equality of statements.  The source compares the statements'
printed texts (`JSON.stringify` of `getText` lists); our printer is injective
on statement structure, so text equality is structural equality. -/
def stmtEqb : Stmt → Stmt → Bool
  | .funcDecl n1 e1 b1 => fun s => match s with
      | .funcDecl n2 e2 b2 => n1 == n2 && e1 == e2 && stmtsEqb b1 b2
      | _ => false
  | .varStmt e1 d1 => fun s => match s with
      | .varStmt e2 d2 => e1 == e2 && declsEqb d1 d2
      | _ => false
  | .exprStmt a => fun s => match s with
      | .exprStmt b => exprEqb a b
      | _ => false
  | .ret none => fun s => match s with
      | .ret none => true
      | _ => false
  | .ret (some a) => fun s => match s with
      | .ret (some b) => exprEqb a b
      | _ => false
  | .importDecl => fun s => match s with
      | .importDecl => true
      | _ => false
  | .exportDecl => fun s => match s with
      | .exportDecl => true
      | _ => false
def stmtsEqb : List Stmt → List Stmt → Bool
  | [] => fun l => match l with
      | [] => true
      | _ => false
  | a :: as1 => fun l => match l with
      | b :: bs => stmtEqb a b && stmtsEqb as1 bs
      | _ => false
def declEqb : VarDecl → VarDecl → Bool
  | .noInit a => fun d => match d with
      | .noInit b => a == b
      | _ => false
  | .fnInit a1 ar1 b1 => fun d => match d with
      | .fnInit a2 ar2 b2 => a1 == a2 && ar1 == ar2 && stmtsEqb b1 b2
      | _ => false
  | .exprInit a1 e1 => fun d => match d with
      | .exprInit a2 e2 => a1 == a2 && exprEqb e1 e2
      | _ => false
def declsEqb : List VarDecl → List VarDecl → Bool
  | [] => fun l => match l with
      | [] => true
      | _ => false
  | a :: as1 => fun l => match l with
      | b :: bs => declEqb a b && declsEqb as1 bs
      | _ => false
end

/-- `reorderBlockStatements` from `fixer.ts`: collect the block's
function-like statements, topologically sort them by their in-block call
dependencies, place them first followed by the remaining statements in
original order, and report `none` when nothing changed.  (The source filters
the non-function statements by node identity against the collected list;
a statement is in that list exactly when `extractStatementFunctionName`
yields a name.) -/
def reorderBlockStatements (stmts : List Stmt) : Option (List Stmt) :=
  let funcStatements := stmts.filterMap (fun s =>
    (extractStatementFunctionName s).map (fun n => (s, n)))
  if funcStatements.length < 2 then none
  else
    let functionNames := funcStatements.map (·.2)
    let dependencies := funcStatements.foldl (fun m p =>
      setA m p.2 (extractDependenciesFor p.1 functionNames)) []
    let blockSourceOrder := funcStatements.enum.foldl (fun m p =>
      setA m p.2.2 p.1) []
    let sorted := (topologicalSort dependencies blockSourceOrder).reverse
    let reorderedStmts := sorted.filterMap (fun n =>
      (funcStatements.find? (fun f => f.2 = n)).map (·.1))
    let otherStatements := stmts.filter (fun s => (extractStatementFunctionName s).isNone)
    let newStatements := reorderedStmts ++ otherStatements
    if stmtsEqb newStatements stmts then none else some newStatements

/-- `visitForNestedBlocks` on a declarator: a function-literal initializer
with a block body of at least two statements gets its immediate body
reordered (`tryReorderArrowOrFunctionExpr`); nothing else changes (the
embedded expression language has no function literals in call arguments). -/
def visitDeclNested (d : VarDecl) : VarDecl :=
  match d with
  | .fnInit b arrow body =>
      if body.length ≥ 2 then
        match reorderBlockStatements body with
        | some b2 => .fnInit b arrow b2
        | none => .fnInit b arrow body
      else .fnInit b arrow body
  | _ => d

/-- `visitForNestedBlocks` on a top-level statement: a function declaration
with a body of at least two statements gets its immediate body reordered
(`tryReorderFunctionDeclaration`; no deeper recursion on this branch),
variable statements map the transform over their initializers, and every
other statement kind is returned unchanged. -/
def visitStmtNested (s : Stmt) : Stmt :=
  match s with
  | .funcDecl n e body =>
      if body.length ≥ 2 then
        match reorderBlockStatements body with
        | some b2 => .funcDecl n e b2
        | none => .funcDecl n e body
      else .funcDecl n e body
  | .varStmt e decls => .varStmt e (decls.map visitDeclNested)
  | _ => s

/-- `transformNestedBlocks` / `applyNestedOnly` (the nested rule's fix): the
source file's statements are each transformed one level deep. -/
def applyNestedOnly (ast : List Stmt) : List Stmt :=
  ast.map visitStmtNested

/-- The `Violation` union from `rule-context.ts`. -/
inductive Violation where
  | stepdown (v : StepdownViolation)
  | nested (v : NestedFunctionViolation)

structure RuleContext where
  ast : List Stmt
  functions : List FunctionInfo
  callGraph : CallGraph
  dependencyGraph : List (String × List String)

/-- `buildRuleContext(parsedFile)`. -/
def buildRuleContext (ast : List Stmt) : RuleContext :=
  let functions := extractFunctions ast
  let cg := buildCallGraph functions ast
  { ast := ast
    functions := functions
    callGraph := cg
    dependencyGraph := callGraphToDependencyMap cg }

/-- `findStepdownViolations(ctx)` (the actionable, cycle-filtered set). -/
def findStepdownViolations (ctx : RuleContext) : List StepdownViolation :=
  findStepdownViolationsCore ctx.functions ctx.callGraph

/-- `findNestedViolations(ctx)`. -/
def findNestedViolations (ctx : RuleContext) : List NestedFunctionViolation :=
  findNestedFunctionViolations ctx.ast ctx.functions

/-- The two rules registered by `register-default-rules.ts`, in registration
order. -/
inductive RuleId where
  | stepdown
  | nested
  deriving DecidableEq

def ruleIdString : RuleId → String
  | .stepdown => "stepdown"
  | .nested => "nested"

/-- `rule.analyze(ctx)`. -/
def ruleAnalyze : RuleId → RuleContext → List Violation
  | .stepdown, ctx => (findStepdownViolations ctx).map Violation.stepdown
  | .nested, ctx => (findNestedViolations ctx).map Violation.nested

/-- `rule.fix(ctx, violations)` (neither rule reads the violation list). -/
def ruleFix : RuleId → RuleContext → List Stmt
  | .stepdown, ctx => reorderTopLevelOnly ctx.ast ctx.dependencyGraph
  | .nested, ctx => applyNestedOnly ctx.ast

def defaultRules : List RuleId := [RuleId.stepdown, RuleId.nested]

/-- `fixFileWithRules`: each enabled rule re-parses the running content,
analyzes it, and applies its fix only when it reported violations.  Parsing
and printing are the identity on the embedded syntax, so content is a
statement list. -/
def fixFileWithRules (rules : List RuleId) (content : List Stmt) : List Stmt :=
  rules.foldl (fun content rule =>
    let ctx := buildRuleContext content
    let violations := ruleAnalyze rule ctx
    if violations.length > 0 then ruleFix rule ctx else content) content

/-- `AnalysisResult` (the fields the claims read). -/
structure AnalysisResult where
  violations : List StepdownViolation
  nestedFunctionViolations : List NestedFunctionViolation
  circularDependencies : List (List String)
  totalFunctions : Nat

/-- `analyzeWithRules` / `violationsToAnalysisResult`. -/
def analyzeWithRules (rules : List RuleId) (ast : List Stmt) : AnalysisResult :=
  let ctx := buildRuleContext ast
  let all := rules.foldl (fun acc r => acc ++ ruleAnalyze r ctx) []
  { violations := all.filterMap (fun v => match v with
      | .stepdown s => some s
      | _ => none)
    nestedFunctionViolations := all.filterMap (fun v => match v with
      | .nested n => some n
      | _ => none)
    circularDependencies := detectCircularDependencies ctx.functions ctx.callGraph
    totalFunctions := ctx.functions.length }

/-- `getEnabled` from `registry.ts`, over any registered rule list: an
undefined or empty id list selects every registered rule. -/
def getEnabled {α : Type} (ruleId : α → String) (rules : List α)
    (ids : Option (List String)) : List α :=
  match ids with
  | none => rules
  | some l => if l.length = 0 then rules else rules.filter (fun r => l.contains (ruleId r))

/-- `useRulePipeline` from `runPipeline` in `fixer.ts`:
`config.enabledRuleIds !== undefined && enabledRules.length > 0`. -/
def useRulePipeline {α : Type} (ruleId : α → String) (rules : List α)
    (enabledRuleIds : Option (List String)) : Bool :=
  enabledRuleIds.isSome && (getEnabled ruleId rules enabledRuleIds).length > 0

/-- `return callee();`. -/
def retCall (callee : String) : Stmt := .ret (some (.call callee []))

/-- The top-level function names of a statement list, in order. -/
def topLevelFunctionNames (ast : List Stmt) : List String :=
  ast.filterMap extractFunctionName

/-- The function names declared in the body of the first top-level function
declaration, in order (a projection used to compare fixer outputs). -/
def firstBodyFunctionNames : List Stmt → List String
  | .funcDecl _ _ body :: _ => body.filterMap extractFunctionName
  | _ => []

/-- Scenario D input:
`function sharedHelper(){return "ok";}` then `callerA`, `callerB`, `callerC`
each `function callerX(){return sharedHelper();}`, one declaration per line
group. -/
def scenarioD : List Stmt :=
  [ .funcDecl "sharedHelper" false [.ret (some .lit)],
    .funcDecl "callerA" false [retCall "sharedHelper"],
    .funcDecl "callerB" false [retCall "sharedHelper"],
    .funcDecl "callerC" false [retCall "sharedHelper"] ]

/-- `function parent(){ function a(){b();} function b(){} function c(){}
log; }` — the settled-input oscillation witness: the input has no stepdown
violations at all, and its nested-rule fix swings the block between the
orders `c, a, b` and `a, b, c` on successive runs. -/
def oscillInput : List Stmt :=
  [ .funcDecl "parent" false [
      .funcDecl "a" false [.exprStmt (.call "b" [])],
      .funcDecl "b" false [],
      .funcDecl "c" false [],
      .exprStmt .lit ] ]

/-- Scenario C, first file:
`function parent(){ function helper(){console.log("x");} console.log("y"); }`. -/
def scenarioC1 : List Stmt :=
  [ .funcDecl "parent" false [
      .funcDecl "helper" false [.exprStmt .lit],
      .exprStmt .lit ] ]

/-- Scenario C, second file: the same body with `return helper();` appended. -/
def scenarioC2 : List Stmt :=
  [ .funcDecl "parent" false [
      .funcDecl "helper" false [.exprStmt .lit],
      .exprStmt .lit,
      retCall "helper" ] ]

/-- `const parent = () => { const helper = () => {…}; log; return helper(); }`
— a variable-bound parent whose nested function is referenced later in the
body. -/
def arrowParentInput : List Stmt :=
  [ .varStmt false [ .fnInit (.ident "parent") true [
      .varStmt false [ .fnInit (.ident "helper") true [.exprStmt .lit] ],
      .exprStmt .lit,
      retCall "helper" ] ] ]

/-- The body of the arrow-bound parent in `arrowParentInput`. -/
def arrowParentBody : List Stmt :=
  [ .varStmt false [ .fnInit (.ident "helper") true [.exprStmt .lit] ],
    .exprStmt .lit,
    retCall "helper" ]

/-- `function f(){return f();}` — a directly recursive function. -/
def recursiveInput : List Stmt :=
  [ .funcDecl "f" false [retCall "f"] ]

/-- `const { f } = () => {};` — a destructuring binding target with a
function-like initializer and no simple identifier. -/
def destructuringInput : List Stmt :=
  [ .varStmt false [ .fnInit (.pattern ["f"]) true [] ] ]

/-- `a → b → c → a` cycle plus an unrelated actionable violation pair
(`e` calls `d`, which is declared above it). -/
def cycleInput : List Stmt :=
  [ .funcDecl "a" false [.exprStmt (.call "b" [])],
    .funcDecl "b" false [.exprStmt (.call "c" [])],
    .funcDecl "c" false [.exprStmt (.call "a" [])],
    .funcDecl "d" false [.ret (some .lit)],
    .funcDecl "e" false [.exprStmt (.call "d" [])] ]

/-- The concrete actionable violation of `cycleInput` (`e` calls `d`, which
is declared above it; neither is in the `a → b → c` cycle). -/
def cycleViolation : StepdownViolation :=
  { file := ""
    function := { name := "e", kind := .declaration, line := 13, start := 26,
                  isExported := false, parentFunction := none }
    dependency := { name := "d", kind := .declaration, line := 10, start := 20,
                    isExported := false, parentFunction := none }
    message := "Stepdown violation: e calls d which appears above it"
    callSite := { line := 14, column := 1 } }

/-- Witness fixtures for the pairwise stepdown characterization: `helper` on
line 1, `main` on line 4 calling it from line 5. -/
def wCallee : FunctionInfo :=
  { name := "helper", kind := .declaration, line := 1, start := 2,
    isExported := false, parentFunction := none }

def wCaller : FunctionInfo :=
  { name := "main", kind := .declaration, line := 4, start := 8,
    isExported := false, parentFunction := none }

def wFunctions : List FunctionInfo := [wCallee, wCaller]

def wCallGraph : CallGraph :=
  [("helper", []), ("main", [{ calledFunction := "helper", callSite := { line := 5, column := 1 } }])]

/-- A two-cycle dependency graph used to witness the sort's totality. -/
def wCycleDeps : List (String × List String) := [("a", ["b"]), ("b", ["a"])]

def wCycleOrder : List (String × Nat) := [("a", 0), ("b", 1)]

/-- A block whose reordering changes: `lit; function a(){b();} function b(){}`. -/
def wBlock : List Stmt :=
  [ .exprStmt .lit,
    .funcDecl "a" false [.exprStmt (.call "b" [])],
    .funcDecl "b" false [] ]

/-- `reorderBlockStatements wBlock` output. -/
def wBlockFixed : List Stmt :=
  [ .funcDecl "a" false [.exprStmt (.call "b" [])],
    .funcDecl "b" false [],
    .exprStmt .lit ]

/-- Dummy entity used to exercise `checkAndAddViolation` directly. -/
def wNestedInfo : FunctionInfo :=
  { name := "x", kind := .declaration, line := 2, start := 4,
    isExported := false, parentFunction := some "p" }

set_option maxRecDepth 10000

theorem mem_jsDedup_aux (l acc : List String) (y : String) :
    y ∈ l.foldl (fun a x => if x ∈ a then a else a ++ [x]) acc ↔ y ∈ acc ∨ y ∈ l := by
  induction l generalizing acc with
  | nil => simp
  | cons x xs ih =>
      simp only [List.foldl_cons, ih]
      by_cases hx : x ∈ acc
      · simp only [if_pos hx, List.mem_cons]
        constructor
        · tauto
        · rintro (h | rfl | h) <;> tauto
      · simp only [if_neg hx, List.mem_append, List.mem_singleton, List.mem_cons]
        tauto

theorem mem_jsDedup (l : List String) (y : String) : y ∈ jsDedup l ↔ y ∈ l := by
  unfold jsDedup
  rw [mem_jsDedup_aux]
  simp

/-- C1: the claim predicts that fixing Scenario D keeps callerA, callerB,
callerC in their original relative order.  The fixer's reversal of the
post-order DFS instead emits the three independent callers in reversed
relative order: callerA ends up after callerB (and callerB after callerC),
refuting the claimed order at this concrete input. -/
theorem scenarioD_order_counterexample :
    topLevelFunctionNames (fixFileWithRules defaultRules scenarioD) =
      ["callerC", "callerB", "callerA", "sharedHelper"] ∧
    ¬ ((topLevelFunctionNames (fixFileWithRules defaultRules scenarioD)).indexOf "callerA" <
       (topLevelFunctionNames (fixFileWithRules defaultRules scenarioD)).indexOf "callerB") := by
  decide

/-- C1 (amended): for the Scenario D input, the fixer's output places
callerC, callerB, callerA — the callers in reversed relative order — all
before sharedHelper, and re-analyzing the fixed output reports 0 stepdown
violations, 0 nested violations and no cycles. -/
theorem scenarioD_fix_amended :
    topLevelFunctionNames (fixFileWithRules defaultRules scenarioD) =
      ["callerC", "callerB", "callerA", "sharedHelper"] ∧
    (analyzeWithRules defaultRules (fixFileWithRules defaultRules scenarioD)).violations = [] ∧
    (analyzeWithRules defaultRules (fixFileWithRules defaultRules scenarioD)).nestedFunctionViolations = [] ∧
    (analyzeWithRules defaultRules (fixFileWithRules defaultRules scenarioD)).circularDependencies = [] := by
  decide

/-- C5: the idempotence requirement fails on the code.  For `oscillInput`,
analyzing `fix(x)` reports no actionable stepdown violations (both as the
pipeline's analysis result and as the stepdown rule's actionable set), yet
`fix(fix(x)) ≠ fix(x)`: the nested-block reorder swings the inner block
between the orders `c, a, b` and `a, b, c` on successive runs. -/
theorem fix_oscillates_on_settled_input :
    (analyzeWithRules defaultRules (fixFileWithRules defaultRules oscillInput)).violations = [] ∧
    findStepdownViolations (buildRuleContext (fixFileWithRules defaultRules oscillInput)) = [] ∧
    fixFileWithRules defaultRules (fixFileWithRules defaultRules oscillInput) ≠
      fixFileWithRules defaultRules oscillInput := by
  refine ⟨by decide, by decide, fun h => ?_⟩
  have h2 := congrArg firstBodyFunctionNames h
  revert h2
  decide

/-- C4: the reference-based suppression fails for variable-bound parents.
In `arrowParentInput` the nested `helper` IS referenced in the parent body
(`return helper();`, outside its own declaration), so the claim predicts 0
nested violations — but the analyzer still reports 1, because the parent's
recorded start offset (the variable statement's) never matches the arrow
function node, so the reference lookup fails. -/
theorem nested_reference_suppression_counterexample :
    findIdentStmts "helper" arrowParentBody = true ∧
    isReferencedInFunctionBody "helper"
      { name := "parent", kind := .arrowFunction, line := 1, start := 2,
        isExported := false, parentFunction := none } arrowParentInput = false ∧
    (findNestedViolations (buildRuleContext arrowParentInput)).length = 1 := by
  decide

/-- C4 (amended): a function body with no ordinary-logic statement yields no
nested violation; a nested entity statement is flagged exactly when its line
is strictly below the last logic line and the analyzer's reference lookup
(`isReferencedInFunctionBody`, which locates the parent by its recorded
start offset and therefore succeeds only for declaration parents) finds no
reference; Scenario C behaves as claimed. -/
theorem nested_violation_amended :
    (∀ (ast : List Stmt) (functions : List FunctionInfo) (funcInfo : FunctionInfo)
        (body : List Stmt) (bodyLine : Nat),
      findLastLogicStatementLine body bodyLine = 0 →
      checkFunctionBodyAndProcess ast functions funcInfo body bodyLine = []) ∧
    (∀ (ast : List Stmt) (nodeStart : Nat) (nestedName : String)
        (nestedInfo parentInfo : FunctionInfo) (lastLogicLine : Nat),
      checkAndAddViolation ast nodeStart nestedName nestedInfo parentInfo lastLogicLine ≠ [] ↔
        (lineOfOffset nodeStart < lastLogicLine ∧
         isReferencedInFunctionBody nestedName parentInfo ast = false)) ∧
    (findNestedViolations (buildRuleContext scenarioC1)).length = 1 ∧
    (findNestedViolations (buildRuleContext scenarioC2)).length = 0 := by
  refine ⟨?_, ?_, by decide, by decide⟩
  · intro ast functions funcInfo body bodyLine h
    simp [checkFunctionBodyAndProcess, h]
  · intro ast nodeStart nestedName nestedInfo parentInfo lastLogicLine
    simp only [checkAndAddViolation, ne_eq]
    split_ifs with h
    · simp only [List.cons_ne_self, not_false_eq_true, true_iff]
      rcases (Bool.and_eq_true _ _).mp h with ⟨h1, h2⟩
      exact ⟨of_decide_eq_true h1, by simpa using h2⟩
    · simp only [not_true_eq_false, false_iff, not_and]
      intro h1 h2
      exact h (by simp [h1, h2])

/-- C4 witness: the amended theorem applied at concrete inputs — a body
whose only statement is a function declaration is exempt, and a concrete
unreferenced nested node below the last logic line is flagged. -/
theorem nested_violation_amended_witness :
    checkFunctionBodyAndProcess [] [] wNestedInfo [Stmt.funcDecl "g" false []] 2 = [] ∧
    checkAndAddViolation [] 4 "x" wNestedInfo wNestedInfo 5 ≠ [] := by
  refine ⟨nested_violation_amended.1 [] [] wNestedInfo [Stmt.funcDecl "g" false []] 2 (by decide),
    (nested_violation_amended.2.1 [] 4 "x" wNestedInfo wNestedInfo 5).mpr (by decide)⟩

/-- C8: extraction DOES produce an entity from a destructuring declarator
when its initializer is function-like: `const { f } = () => {}` yields an
entity whose name is the pattern text `{ f }`, refuting the claim that every
variable-originated entity has a simple identifier name. -/
theorem destructuring_extraction_counterexample :
    (extractFunctions destructuringInput).map (fun i => i.name) =
      [bindingText (BindingName.pattern ["f"])] ∧
    bindingText (BindingName.pattern ["f"]) = "\x7b f \x7d" := by
  decide

/-- C8 (amended): declarators without initializers or with non-function
initializers never produce an entity and are silently skipped; a declarator
with a function-like initializer always produces an entity — even for a
destructuring binding target — whose name is the binding's source text. -/
theorem variable_extraction_amended :
    (∀ (parent : Option String) (exported : Bool) (line : Nat) (d : VarDecl),
      d.hasFunctionInitializer = false →
      extractVariableFunction parent exported line d = none) ∧
    (∀ (parent : Option String) (exported : Bool) (line : Nat)
        (b : BindingName) (arrow : Bool) (body : List Stmt),
      bindingText b ≠ "" →
      ∃ info, extractVariableFunction parent exported line (VarDecl.fnInit b arrow body) = some info ∧
        info.name = bindingText b ∧ info.parentFunction = parent ∧ info.line = line) := by
  constructor
  · intro parent exported line d h
    cases d with
    | noInit b => rfl
    | fnInit b arrow body => simp [VarDecl.hasFunctionInitializer] at h
    | exprInit b e => rfl
  · intro parent exported line b arrow body h
    exact ⟨{ name := bindingText b
             kind := if arrow then FnKind.arrowFunction else FnKind.functionExpression
             line := line
             start := 2 * line
             isExported := exported
             parentFunction := parent },
      by simp [extractVariableFunction, h], rfl, rfl, rfl⟩

/-- C8 witness: the amended characterization at concrete declarators — a
declarator without initializer yields nothing, and a pattern-bound function
declarator yields an entity named by the pattern text. -/
theorem variable_extraction_amended_witness :
    extractVariableFunction none false 1 (VarDecl.noInit (BindingName.ident "x")) = none ∧
    ∃ info, extractVariableFunction none false 1
        (VarDecl.fnInit (BindingName.pattern ["f"]) true []) = some info ∧
      info.name = bindingText (BindingName.pattern ["f"]) ∧
      info.parentFunction = none ∧ info.line = 1 := by
  exact ⟨variable_extraction_amended.1 none false 1 (VarDecl.noInit (BindingName.ident "x")) rfl,
    variable_extraction_amended.2 none false 1 (BindingName.pattern ["f"]) true [] (by decide)⟩

/-- C10: an explicitly empty enabled-id list selects every registered rule,
exactly like an absent list, the pipeline flag treats the empty list as
"use the rule pipeline" whenever any rule is registered, and running the fix
pipeline with the empty-list selection equals running it with all default
rules. -/
theorem getEnabled_empty_ids :
    ∀ (α : Type) (ruleId : α → String) (rules : List α) (content : List Stmt),
      getEnabled ruleId rules (some []) = rules ∧
      getEnabled ruleId rules none = rules ∧
      (rules ≠ [] → useRulePipeline ruleId rules (some []) = true) ∧
      fixFileWithRules (getEnabled ruleIdString defaultRules (some [])) content =
        fixFileWithRules defaultRules content := by
  intro α ruleId rules content
  refine ⟨rfl, rfl, ?_, rfl⟩
  intro h
  simp [useRulePipeline, getEnabled, List.length_pos, h]

/-- C10 witness: the theorem applied at the default registry and an empty
file. -/
theorem getEnabled_empty_ids_witness :
    getEnabled ruleIdString defaultRules (some []) = defaultRules ∧
    useRulePipeline ruleIdString defaultRules (some []) = true := by
  exact ⟨(getEnabled_empty_ids RuleId ruleIdString defaultRules []).1,
    (getEnabled_empty_ids RuleId ruleIdString defaultRules []).2.2.1 (by decide)⟩

theorem lookupA_map_snd {α β : Type} (g : α → β) (m : List (String × α)) (k : String) :
    lookupA (m.map (fun p => (p.1, g p.2))) k = (lookupA m k).map g := by
  induction m with
  | nil => rfl
  | cons p rest ih =>
      by_cases h : p.1 = k
      · simp [lookupA, List.find?_cons_of_pos, h]
      · simpa [lookupA, List.find?_cons_of_neg, h] using ih

theorem mem_findViolations (functions : List FunctionInfo) (cg : CallGraph)
    (v : StepdownViolation) :
    v ∈ findViolations functions cg ↔
      ∃ f ∈ functions.filter (fun f => f.parentFunction = none),
        v ∈ findViolationsForFunction f functions cg := by
  simp [findViolations, List.mem_flatMap]

theorem mem_findViolationsForFunction (func : FunctionInfo)
    (functions : List FunctionInfo) (cg : CallGraph) (v : StepdownViolation) :
    v ∈ findViolationsForFunction func functions cg ↔
      ∃ info ∈ (lookupA cg func.name).getD [],
        info.calledFunction ≠ func.name ∧
        ∃ depFunc, functions.find? (fun f => f.name = info.calledFunction) = some depFunc ∧
          depFunc.parentFunction = none ∧ depFunc.line < func.line ∧
          v = mkStepdownViolation func depFunc info.calledFunction info.callSite := by
  simp only [findViolationsForFunction, List.mem_flatMap]
  constructor
  · rintro ⟨info, hmem, hv⟩
    by_cases h1 : info.calledFunction = func.name
    · rw [if_pos h1] at hv
      simp at hv
    · rw [if_neg h1] at hv
      cases hfind : functions.find? (fun f => f.name = info.calledFunction) with
      | none => simp [hfind] at hv
      | some depFunc =>
          simp only [hfind] at hv
          split_ifs at hv with h2 h3
          · simp only [List.mem_singleton] at hv
            exact ⟨info, hmem, h1, depFunc, hfind, h2, h3, hv⟩
          · simp at hv
          · simp at hv
  · rintro ⟨info, hmem, h1, depFunc, hfind, h2, h3, rfl⟩
    exact ⟨info, hmem, by simp [h1, hfind, h2, h3]⟩

/-- C2: for a top-level entity `F` and a recorded call edge to a distinct
name `c` that resolves (by entity lookup) to a top-level entity `C`, the
analyzer emits a stepdown violation for the pair exactly when `C`'s
declaration line is strictly above `F`'s. -/
theorem stepdown_violation_iff
    (functions : List FunctionInfo) (cg : CallGraph) (F C : FunctionInfo)
    (c : String) (site : CallSite)
    (hF : F ∈ functions) (hFtop : F.parentFunction = none)
    (hedge : ({ calledFunction := c, callSite := site } : CallSiteInfo) ∈
      (lookupA cg F.name).getD [])
    (hne : c ≠ F.name)
    (hfind : functions.find? (fun f => f.name = c) = some C)
    (hCtop : C.parentFunction = none) :
    (∃ v ∈ findViolations functions cg,
        v.function = F ∧ v.dependency = C ∧ v.callSite = site) ↔ C.line < F.line := by
  constructor
  · rintro ⟨v, hv, hvF, hvC, hvs⟩
    rw [mem_findViolations] at hv
    obtain ⟨f, hf, hvf⟩ := hv
    rw [mem_findViolationsForFunction] at hvf
    obtain ⟨info, hinfo, h1, depFunc, hfind2, h2, h3, rfl⟩ := hvf
    have hfF : f = F := hvF
    have hdC : depFunc = C := hvC
    exact hfF ▸ hdC ▸ h3
  · intro hlt
    refine ⟨mkStepdownViolation F C c site, ?_, rfl, rfl, rfl⟩
    rw [mem_findViolations]
    refine ⟨F, ?_, ?_⟩
    · rw [List.mem_filter]
      exact ⟨hF, by simp [hFtop]⟩
    · rw [mem_findViolationsForFunction]
      exact ⟨{ calledFunction := c, callSite := site }, hedge, hne, C, hfind, hCtop, hlt, rfl⟩

/-- C2 witness: `helper` declared on line 1, `main` on line 4 calling it —
the characterization yields the expected violation. -/
theorem stepdown_violation_iff_witness :
    ∃ v ∈ findViolations wFunctions wCallGraph,
      v.function = wCaller ∧ v.dependency = wCallee ∧
      v.callSite = { line := 5, column := 1 } :=
  (stepdown_violation_iff wFunctions wCallGraph wCaller wCallee "helper"
    { line := 5, column := 1 }
    (by decide) (by decide) (by decide) (by decide) (by decide) (by decide)).mpr (by decide)

/-- C3: no violation in the actionable (cycle-filtered) stepdown set names a
function that occurs in any detected cycle, as caller or as callee. -/
theorem cycle_nonactionable
    (functions : List FunctionInfo) (cg : CallGraph) (f : String)
    (v : StepdownViolation)
    (hf : f ∈ (detectCircularDependencies functions cg).flatten)
    (hv : v ∈ findStepdownViolationsCore functions cg) :
    v.function.name ≠ f ∧ v.dependency.name ≠ f := by
  simp only [findStepdownViolationsCore, filterOutCircularViolations] at hv
  have h2 := (List.mem_filter.mp hv).2
  simp only [Bool.not_eq_eq_eq_not, Bool.not_true, Bool.or_eq_false_iff] at h2
  have hfn : v.function.name ∉ (detectCircularDependencies functions cg).flatten := by
    simpa using h2.1
  have hdn : v.dependency.name ∉ (detectCircularDependencies functions cg).flatten := by
    simpa using h2.2
  exact ⟨fun heq => hfn (heq ▸ hf), fun heq => hdn (heq ▸ hf)⟩

/-- C3 witness: in `cycleInput` the cycle `a → b → c → a` is detected, the
actionable set still contains the `e → d` violation, and that violation
names no function of the cycle. -/
theorem cycle_nonactionable_witness :
    cycleViolation ∈ findStepdownViolationsCore (extractFunctions cycleInput)
      (buildCallGraph (extractFunctions cycleInput) cycleInput) ∧
    "a" ∈ (detectCircularDependencies (extractFunctions cycleInput)
      (buildCallGraph (extractFunctions cycleInput) cycleInput)).flatten ∧
    cycleViolation.function.name ≠ "a" ∧ cycleViolation.dependency.name ≠ "a" :=
  ⟨by decide, by decide,
    cycle_nonactionable (extractFunctions cycleInput)
      (buildCallGraph (extractFunctions cycleInput) cycleInput) "a" cycleViolation
      (by decide) (by decide)⟩

/-- C7: the dependency graph handed to the fixer DOES contain a self-edge
for a directly recursive function: for `function f(){return f();}` the
deduplicated projection maps `f` to a list containing `f` itself, refuting
the claim that self-calls are excluded from dependency edges. -/
theorem dependency_graph_self_edge_counterexample :
    "f" ∈ (lookupA (buildRuleContext recursiveInput).dependencyGraph "f").getD [] := by
  decide

/-- C7 (amended): the dependency graph is exactly the deduplicated
projection of the call graph — self-edges included — and self-calls are
instead excluded at the point of use: no emitted stepdown violation ever has
caller and callee with the same name. -/
theorem dependency_graph_amended :
    (∀ (cg : CallGraph) (n m : String) (es : List CallSiteInfo),
      lookupA cg n = some es →
      (m ∈ (lookupA (callGraphToDependencyMap cg) n).getD [] ↔
        m ∈ es.map (fun e => e.calledFunction))) ∧
    (∀ (functions : List FunctionInfo) (cg : CallGraph) (v : StepdownViolation),
      v ∈ findViolations functions cg → v.dependency.name ≠ v.function.name) := by
  constructor
  · intro cg n m es h
    have hmap : lookupA (callGraphToDependencyMap cg) n =
        (lookupA cg n).map (fun l => jsDedup (l.map (fun e => e.calledFunction))) := by
      simp only [callGraphToDependencyMap]
      exact lookupA_map_snd (fun l => jsDedup (l.map (fun e => e.calledFunction))) cg n
    rw [hmap, h]
    simp [mem_jsDedup]
  · intro functions cg v hv
    rw [mem_findViolations] at hv
    obtain ⟨f, hf, hvf⟩ := hv
    rw [mem_findViolationsForFunction] at hvf
    obtain ⟨info, hinfo, h1, depFunc, hfind, h2, h3, rfl⟩ := hvf
    have hname : depFunc.name = info.calledFunction := by
      simpa using List.find?_some hfind
    show depFunc.name ≠ f.name
    rw [hname]
    exact h1

/-- C7 witness: the amended characterization applied to the recursive file
(the self-edge is the dedup of the recorded self-call) and to the concrete
`e → d` violation (caller and callee names differ). -/
theorem dependency_graph_amended_witness :
    ("f" ∈ (lookupA (callGraphToDependencyMap
      (buildCallGraph (extractFunctions recursiveInput) recursiveInput)) "f").getD []) ∧
    cycleViolation.dependency.name ≠ cycleViolation.function.name :=
  ⟨(dependency_graph_amended.1
      (buildCallGraph (extractFunctions recursiveInput) recursiveInput) "f" "f"
      [{ calledFunction := "f", callSite := { line := 2, column := 1 } }]
      (by decide)).mpr (by decide),
   dependency_graph_amended.2 (extractFunctions cycleInput)
      (buildCallGraph (extractFunctions cycleInput) cycleInput) cycleViolation (by decide)⟩

/-- Growth relation on sort states: visited and result only grow, and the
`visited ⊆ result` invariant is preserved. -/
def SortLe (a b : SortState) : Prop :=
  (∀ x ∈ a.visited, x ∈ b.visited) ∧ (∀ x ∈ a.result, x ∈ b.result) ∧
  ((∀ x ∈ a.visited, x ∈ a.result) → (∀ x ∈ b.visited, x ∈ b.result))

theorem sortLe_refl (a : SortState) : SortLe a a :=
  ⟨fun _ h => h, fun _ h => h, fun h => h⟩

theorem sortLe_trans (a b c : SortState) (h1 : SortLe a b) (h2 : SortLe b c) :
    SortLe a c :=
  ⟨fun x hx => h2.1 x (h1.1 x hx), fun x hx => h2.2.1 x (h1.2.1 x hx),
   fun h => h2.2.2 (h1.2.2 h)⟩

theorem visitListAux_pres (P : SortState → SortState → Prop)
    (hrefl : ∀ s, P s s) (htrans : ∀ a b c, P a b → P b c → P a c)
    (f : String → List String → SortState → SortState)
    (hf : ∀ n t s, P s (f n t s)) :
    ∀ (ds temp : List String) (st : SortState), P st (visitListAux f ds temp st) := by
  intro ds
  induction ds with
  | nil => intro temp st; exact hrefl st
  | cons d rest ih =>
      intro temp st
      exact htrans _ _ _ (hf d temp st) (ih temp _)

theorem visit_sortLe (deps : List (String × List String)) (order : List (String × Nat)) :
    ∀ (fuel : Nat) (n : String) (temp : List String) (st : SortState),
      SortLe st (visitDependencyNode deps order fuel n temp st) := by
  intro fuel
  induction fuel with
  | zero => intro n temp st; exact sortLe_refl st
  | succ fuel ih =>
      intro n temp st
      show SortLe st (visitStep deps order (visitDependencyNode deps order fuel) n temp st)
      simp only [visitStep]
      split_ifs with h1 h2
      · exact sortLe_refl st
      · exact sortLe_refl st
      · obtain ⟨hv, hr, hi⟩ := visitListAux_pres SortLe sortLe_refl sortLe_trans
          (visitDependencyNode deps order fuel) ih
          ((sortByKey (orderKey order) ((lookupA deps n).getD [])).filter
            (fun d => (lookupA deps d).isSome)) (n :: temp) st
        refine ⟨fun x hx => List.mem_cons_of_mem _ (hv x hx),
          fun x hx => List.mem_append_left _ (hr x hx), ?_⟩
        intro hinv x hx
        rcases List.mem_cons.mp hx with rfl | hx2
        · exact List.mem_append_right _ (List.mem_singleton_self _)
        · exact List.mem_append_left _ (hi hinv x hx2)

theorem visit_mem_visited (deps : List (String × List String))
    (order : List (String × Nat)) (fuel : Nat) (n : String) (temp : List String)
    (st : SortState) (h : n ∉ temp) :
    n ∈ (visitDependencyNode deps order (fuel + 1) n temp st).visited := by
  show n ∈ (visitStep deps order (visitDependencyNode deps order fuel) n temp st).visited
  simp only [visitStep]
  rw [if_neg h]
  by_cases h2 : n ∈ st.visited
  · rw [if_pos h2]; exact h2
  · rw [if_neg h2]; exact List.mem_cons_self _ _

theorem topoFold_sortLe (deps : List (String × List String))
    (order : List (String × Nat)) (fuel : Nat) :
    ∀ (names : List String) (st : SortState), SortLe st (topoFold deps order fuel names st) := by
  intro names
  induction names with
  | nil => intro st; exact sortLe_refl st
  | cons n rest ih =>
      intro st
      simp only [topoFold]
      by_cases h : n ∈ st.visited
      · rw [if_pos h]; exact ih st
      · rw [if_neg h]
        exact sortLe_trans _ _ _ (visit_sortLe deps order fuel n [] st) (ih _)

theorem topoFold_mem (deps : List (String × List String))
    (order : List (String × Nat)) (k : Nat) :
    ∀ (names : List String) (st : SortState) (n : String),
      n ∈ names → n ∈ (topoFold deps order (k + 1) names st).visited := by
  intro names
  induction names with
  | nil => intro st n hn; simp at hn
  | cons m rest ih =>
      intro st n hn
      simp only [topoFold]
      rcases List.mem_cons.mp hn with rfl | hn2
      · by_cases h : n ∈ st.visited
        · rw [if_pos h]
          exact (topoFold_sortLe deps order (k + 1) rest st).1 n h
        · rw [if_neg h]
          exact (topoFold_sortLe deps order (k + 1) rest _).1 n
            (visit_mem_visited deps order k n [] st (by simp))
      · by_cases h : m ∈ st.visited
        · rw [if_pos h]; exact ih st n hn2
        · rw [if_neg h]; exact ih _ n hn2

theorem mem_insertByKey (key : String → Nat) (x : String) :
    ∀ (l : List String) (y : String), y ∈ insertByKey key x l ↔ y = x ∨ y ∈ l := by
  intro l
  induction l with
  | nil => intro y; simp [insertByKey]
  | cons a rest ih =>
      intro y
      simp only [insertByKey]
      split_ifs with h
      · simp only [List.mem_cons, ih]
        tauto
      · simp only [List.mem_cons]

theorem mem_sortByKey_aux (key : String → Nat) :
    ∀ (l acc : List String) (y : String),
      y ∈ l.foldl (fun a x => insertByKey key x a) acc ↔ y ∈ acc ∨ y ∈ l := by
  intro l
  induction l with
  | nil => intro acc y; simp
  | cons x xs ih =>
      intro acc y
      simp only [List.foldl_cons, ih, mem_insertByKey, List.mem_cons]
      tauto

theorem mem_sortByKey (key : String → Nat) (l : List String) (y : String) :
    y ∈ sortByKey key l ↔ y ∈ l := by
  unfold sortByKey
  rw [mem_sortByKey_aux]
  simp

/-- C6: the rule-pipeline topological sort is total and cycle-tolerant — a
name already on the active DFS path is skipped (returning the state
unchanged, never raising), and every key of the dependency map, cyclic or
not, appears in the sort's output (so no function is lost; the fallback
append and the leaf append close the ordering in source order). -/
theorem topological_sort_total :
    (∀ (deps : List (String × List String)) (order : List (String × Nat))
        (fuel : Nat) (name : String) (temp : List String) (st : SortState),
      name ∈ temp → visitDependencyNode deps order fuel name temp st = st) ∧
    (∀ (deps : List (String × List String)) (order : List (String × Nat)) (n : String),
      n ∈ deps.map (fun p => p.1) → n ∈ topologicalSort deps order) := by
  constructor
  · intro deps order fuel name temp st h
    cases fuel with
    | zero => rfl
    | succ fuel =>
        show visitStep deps order (visitDependencyNode deps order fuel) name temp st = st
        simp [visitStep, h]
  · intro deps order n hn
    simp only [topologicalSort]
    have hnames : n ∈ sortByKey (orderKey order) (deps.map (fun p => p.1)) :=
      (mem_sortByKey (orderKey order) _ n).mpr hn
    have hvis := topoFold_mem deps order deps.length
      (sortByKey (orderKey order) (deps.map (fun p => p.1)))
      { visited := [], result := [] } n hnames
    have hle := topoFold_sortLe deps order (deps.length + 1)
      (sortByKey (orderKey order) (deps.map (fun p => p.1)))
      { visited := [], result := [] }
    have hinv := hle.2.2 (by intro x hx; simp at hx)
    exact List.mem_append_left _ (hinv n hvis)

/-- C6 witness: on the cyclic graph `a ↔ b`, re-encountering `a` on the
active path is a no-op, and `a` still appears in the sort output. -/
theorem topological_sort_total_witness :
    visitDependencyNode wCycleDeps wCycleOrder 3 "a" ["a"] { visited := [], result := [] } =
      { visited := [], result := [] } ∧
    "a" ∈ topologicalSort wCycleDeps wCycleOrder :=
  ⟨topological_sort_total.1 wCycleDeps wCycleOrder 3 "a" ["a"]
      { visited := [], result := [] } (by decide),
   topological_sort_total.2 wCycleDeps wCycleOrder "a" (by decide)⟩

/-- C9: whenever the nested-block transformation rewrites a block, the new
statement list is some list of function-like statements followed by exactly
the non-function statements of the original block in their original order. -/
theorem reorder_block_structure (stmts newStmts : List Stmt)
    (h : reorderBlockStatements stmts = some newStmts) :
    ∃ fns, newStmts = fns ++ stmts.filter (fun s => (extractStatementFunctionName s).isNone) ∧
      ∀ s ∈ fns, (extractStatementFunctionName s).isSome := by
  simp only [reorderBlockStatements] at h
  split_ifs at h with h1 h2
  have hx := Option.some.inj h
  subst hx
  refine ⟨_, rfl, ?_⟩
  intro s hs
  rw [List.mem_filterMap] at hs
  obtain ⟨n, hn, hfind⟩ := hs
  rw [Option.map_eq_some'] at hfind
  obtain ⟨fpair, hfind2, hs1⟩ := hfind
  have hmem := List.mem_of_find?_eq_some hfind2
  rw [List.mem_filterMap] at hmem
  obtain ⟨s0, hs0, hmap⟩ := hmem
  rw [Option.map_eq_some'] at hmap
  obtain ⟨n0, hn0, hpair⟩ := hmap
  subst hpair
  subst hs1
  simp [hn0]

/-- C9 witness: the concrete block `lit; function a(){b();} function b(){}`
is rewritten, and the rewritten block is the two function declarations
followed by the logic statement. -/
theorem reorder_block_structure_witness :
    ∃ fns, wBlockFixed = fns ++ wBlock.filter (fun s => (extractStatementFunctionName s).isNone) ∧
      ∀ s ∈ fns, (extractStatementFunctionName s).isSome :=
  reorder_block_structure wBlock wBlockFixed rfl
